import Mathlib

/-!
Shallow embedding of the todo-cli program (src/todo-cli/src/main.rs).

Conventions of the embedding:
- The Rust code reads the wall clock with Local::now().to_string(); here the
  current time is passed in explicitly as a String argument named now.
- Console printing is dropped. A Rust method taking &mut self and returning
  Result<(), String> is embedded as a function returning the pair of the
  Result (as Except String Unit) and the state after the call, so that the
  state on the error path is visible in the model.
- serde_json serialization is modelled at the level of JSON values: a Json
  inductive stands for the serialized document, and the byte-level printing
  and lexing done by serde_json is treated as external library code.
-/

/-- Zadanie: the task record (struct Zadanie in main.rs). -/
structure Zadanie where
  id : Nat
  text : String
  done : Bool
  created_at : String
  completed_at : Option String
  due_date : Option String
  deriving DecidableEq, Repr

/-- Zadanie::new — fresh task without a due date; now is the creation timestamp. -/
def Zadanie.new (id : Nat) (text : String) (now : String) : Zadanie :=
  { id := id, text := text, done := false, created_at := now,
    completed_at := none, due_date := none }

/-- Zadanie::with_due_date — fresh task carrying an optional due date. -/
def Zadanie.with_due_date (id : Nat) (text : String) (due_date : Option String)
    (now : String) : Zadanie :=
  { id := id, text := text, done := false, created_at := now,
    completed_at := none, due_date := due_date }

/-- Zadanie::complete — sets done and records the completion timestamp. -/
def Zadanie.complete (z : Zadanie) (now : String) : Zadanie :=
  { z with done := true, completed_at := some now }

/-- splitDash cs splits a character list at every dash, keeping empty groups. -/
def splitDash : List Char → List (List Char)
  | [] => [[]]
  | c :: cs =>
    if c = '-' then [] :: splitDash cs
    else
      match splitDash cs with
      | [] => [[c]]
      | g :: gs => (c :: g) :: gs

/-- allDigits cs: nonempty and consisting of decimal digits only. -/
def allDigits (cs : List Char) : Bool :=
  !cs.isEmpty && cs.all (fun c => c.isDigit)

/-- natOfDigits reads a digit list as a decimal number. -/
def natOfDigits (cs : List Char) : Nat :=
  cs.foldl (fun n c => n * 10 + (c.toNat - 48)) 0

/-- Gregorian leap year test. -/
def isLeapYear (y : Nat) : Bool :=
  y % 4 == 0 && (y % 100 != 0 || y % 400 == 0)

/-- Number of days in month m of year y. -/
def daysInMonth (y m : Nat) : Nat :=
  if m == 2 then (if isLeapYear y then 29 else 28)
  else if m == 4 || m == 6 || m == 9 || m == 11 then 30
  else 31

/-- Model of the external chrono call NaiveDate::parse_from_str(s, "%Y-%m-%d"):
the whole string must be three dash-separated runs of decimal digits (the
flexible numeric widths of chrono are modelled as at most 4 digits for the
year and at most 2 for month and day), and the resulting triple must be a
real calendar date: month in 1..12 and day in 1..daysInMonth (leap years
included), as validated by NaiveDate construction. -/
def parse_from_str_ymd (s : String) : Option (Nat × Nat × Nat) :=
  match splitDash s.data with
  | [ys, ms, ds] =>
    if allDigits ys && ys.length ≤ 4 && allDigits ms && ms.length ≤ 2
        && allDigits ds && ds.length ≤ 2 then
      let y := natOfDigits ys
      let m := natOfDigits ms
      let d := natOfDigits ds
      if 1 ≤ m ∧ m ≤ 12 ∧ 1 ≤ d ∧ d ≤ daysInMonth y m then some (y, m, d)
      else none
    else none
  | _ => none

/-- ToDolist: the store (struct ToDolist in main.rs). -/
structure ToDolist where
  zadaniey : List Zadanie
  next_id : Nat
  deriving DecidableEq, Repr

/-- ToDolist::new — empty store, counter starts at 1. -/
def ToDolist.new : ToDolist :=
  { zadaniey := [], next_id := 1 }

/-- ToDolist::add — push a task built with next_id, then increment next_id. -/
def ToDolist.add (s : ToDolist) (text now : String) : ToDolist :=
  { zadaniey := s.zadaniey ++ [Zadanie.new s.next_id text now],
    next_id := s.next_id + 1 }

/-- Error message of add_with_date (invalid date format). -/
def dateFormatErr : String :=
  "❌ Неверный формат даты. Используйте ГГГГ-ММ-ДД"

/-- Error message of complete and remove on a missing id. -/
def notFoundErr (id : Nat) : String :=
  "❌ Задача с ID " ++ toString id ++ " не найдена"

/-- ToDolist::add_with_date — parse the date first; on success push a task
with the due date and increment next_id, on failure return the error with
the store untouched. -/
def ToDolist.add_with_date (s : ToDolist) (text : String) (date_str : String)
    (now : String) : Except String Unit × ToDolist :=
  match parse_from_str_ymd date_str with
  | some _ =>
    (Except.ok (),
      { zadaniey := s.zadaniey ++
          [Zadanie.with_due_date s.next_id text (some date_str) now],
        next_id := s.next_id + 1 })
  | none => (Except.error dateFormatErr, s)

/-- Output of ToDolist::list — either the distinct empty-list message, or a
progress percentage plus one (id, done, text, due_date) line per task. -/
inductive ListOutput where
  | empty : ListOutput
  | tasks (progress : ℚ) (lines : List (Nat × Bool × String × Option String)) : ListOutput
  deriving DecidableEq, Repr

/-- ToDolist::list — empty guard first; otherwise progress is
(done as f32 / total as f32) * 100.0, modelled in exact rational
arithmetic, and the tasks are listed in store order. -/
def ToDolist.list (s : ToDolist) : ListOutput :=
  if s.zadaniey.isEmpty then ListOutput.empty
  else
    ListOutput.tasks
      (((s.zadaniey.filter (fun t => t.done)).length : ℚ) / (s.zadaniey.length : ℚ) * 100)
      (s.zadaniey.map (fun z => (z.id, z.done, z.text, z.due_date)))

/-- modifyFirst p f l rewrites the first element satisfying p in place and
returns none when no element satisfies p; this is the embedding of
iter_mut().find(pred) followed by a mutation of the found element. -/
def modifyFirst (p : α → Bool) (f : α → α) : List α → Option (List α)
  | [] => none
  | x :: xs =>
    if p x then some (f x :: xs)
    else (modifyFirst p f xs).map (fun l => x :: l)

/-- ToDolist::complete — find the first task with the id and call
Zadanie::complete on it; NotFound error otherwise. -/
def ToDolist.complete (s : ToDolist) (id : Nat) (now : String) :
    Except String Unit × ToDolist :=
  match modifyFirst (fun t => t.id == id) (fun t => t.complete now) s.zadaniey with
  | some l => (Except.ok (), { s with zadaniey := l })
  | none => (Except.error (notFoundErr id), s)

/-- ToDolist::remove — position of the first task with the id, then
Vec::remove at that index; NotFound error otherwise. -/
def ToDolist.remove (s : ToDolist) (id : Nat) : Except String Unit × ToDolist :=
  match s.zadaniey.findIdx? (fun t => t.id == id) with
  | some i => (Except.ok (), { s with zadaniey := s.zadaniey.eraseIdx i })
  | none => (Except.error (notFoundErr id), s)

/-- JSON values, standing for the documents serde_json reads and writes. -/
inductive Json where
  | null : Json
  | bool (b : Bool) : Json
  | num (n : Nat) : Json
  | str (s : String) : Json
  | arr (elems : List Json) : Json
  | obj (fields : List (String × Json)) : Json

/-- serde serialization of an Option String field: None becomes null. -/
def optStrToJson : Option String → Json
  | none => Json.null
  | some s => Json.str s

/-- Derived serde Serialize for Zadanie: an object with the fields in
declaration order. -/
def Zadanie.toJson (z : Zadanie) : Json :=
  Json.obj [("id", Json.num z.id), ("text", Json.str z.text),
    ("done", Json.bool z.done), ("created_at", Json.str z.created_at),
    ("completed_at", optStrToJson z.completed_at),
    ("due_date", optStrToJson z.due_date)]

/-- Field lookup in a JSON object (first binding wins). -/
def jsonLookup (fields : List (String × Json)) (key : String) : Option Json :=
  (fields.find? (fun kv => kv.1 == key)).map (fun kv => kv.2)

/-- Expect a JSON number (usize field). -/
def jsonToNat : Json → Option Nat
  | Json.num n => some n
  | _ => none

/-- Expect a JSON string. -/
def jsonToStr : Json → Option String
  | Json.str s => some s
  | _ => none

/-- Expect a JSON boolean. -/
def jsonToBool : Json → Option Bool
  | Json.bool b => some b
  | _ => none

/-- Expect a nullable JSON string (Option String field; an absent field is
handled by the caller handing in null, matching the serde default for
Option fields). -/
def jsonToOptStr : Json → Option (Option String)
  | Json.null => some none
  | Json.str s => some (some s)
  | _ => none

/-- Derived serde Deserialize for Zadanie: every field is read from the
object by name; Option fields accept null and default to None when the
field is absent. -/
def Zadanie.fromJson : Json → Option Zadanie
  | Json.obj fields => do
    let id ← (jsonLookup fields "id").bind jsonToNat
    let text ← (jsonLookup fields "text").bind jsonToStr
    let done ← (jsonLookup fields "done").bind jsonToBool
    let created_at ← (jsonLookup fields "created_at").bind jsonToStr
    let completed_at ← jsonToOptStr ((jsonLookup fields "completed_at").getD Json.null)
    let due_date ← jsonToOptStr ((jsonLookup fields "due_date").getD Json.null)
    some { id := id, text := text, done := done, created_at := created_at,
           completed_at := completed_at, due_date := due_date }
  | _ => none

/-- save_to_file — the JSON document serde_json::to_string writes to the
fixed-path file: a single array of task objects. -/
def save_to_file (zadaniey : List Zadanie) : Json :=
  Json.arr (zadaniey.map Zadanie.toJson)

/-- Parse a JSON document as a Vec of Zadanie (serde_json::from_str). -/
def parseTasks : Json → Option (List Zadanie)
  | Json.arr elems => elems.mapM Zadanie.fromJson
  | _ => none

/-- load_from_file — the file is modelled as Option Json, none when the
fixed-path file does not exist: that case returns Ok with an empty vector;
otherwise the content is parsed, with a parse failure surfaced as an error. -/
def load_from_file (file : Option Json) : Except String (List Zadanie) :=
  match file with
  | none => Except.ok []
  | some doc =>
    match parseTasks doc with
    | some zadaniey => Except.ok zadaniey
    | none => Except.error "parse error"

/-- Startup in main: load succeeded, restore next_id as the maximum loaded
id + 1, with unwrap_or(0) on the empty maximum. -/
def initFromLoaded (ts : List Zadanie) : ToDolist :=
  { zadaniey := ts, next_id := ((ts.map Zadanie.id).max?.getD 0) + 1 }

/-- One store command, with the wall-clock readings it would make. -/
inductive Op where
  | add (text now : String) : Op
  | add_with_date (text date now : String) : Op
  | complete (id : Nat) (now : String) : Op
  | remove (id : Nat) : Op

/-- The state after executing one command. -/
def ToDolist.step (s : ToDolist) : Op → ToDolist
  | Op.add text now => s.add text now
  | Op.add_with_date text date now => (s.add_with_date text date now).2
  | Op.complete id now => (s.complete id now).2
  | Op.remove id => (s.remove id).2

/-- The state after executing a command sequence. -/
def ToDolist.run (s : ToDolist) : List Op → ToDolist
  | [] => s
  | op :: ops => (s.step op).run ops

/-- Does this command assign a fresh id? True for add, and for
add_with_date exactly when its date string is valid. -/
def Op.assigns : Op → Bool
  | Op.add _ _ => true
  | Op.add_with_date _ date _ => (parse_from_str_ymd date).isSome
  | _ => false

/-- The ids handed out while executing a command sequence, in order. -/
def ToDolist.assignedIds (s : ToDolist) : List Op → List Nat
  | [] => []
  | op :: ops =>
    if op.assigns then s.next_id :: (s.step op).assignedIds ops
    else (s.step op).assignedIds ops

/-- How many commands of the sequence assign an id. -/
def numAssigned (ops : List Op) : Nat :=
  (ops.filter Op.assigns).length

/-- Recursive count of the commands assigning an id; agrees with numAssigned. -/
def numAssignedRec : List Op → Nat
  | [] => 0
  | op :: ops => (if op.assigns then 1 else 0) + numAssignedRec ops

/-- Command list of the save and reload scenario: two tasks added, the one
holding the maximum id removed. -/
def reloadScenarioOps : List Op :=
  [Op.add "a" "t1", Op.add "b" "t2", Op.remove 2]

/-- Store at the end of the first run of the scenario. -/
def reloadScenarioStore : ToDolist :=
  ToDolist.new.run reloadScenarioOps

deriving instance DecidableEq for Except

/-- The task invariant: a completion timestamp is present exactly when the
task is marked done. -/
def TaskInv (s : ToDolist) : Prop :=
  ∀ z ∈ s.zadaniey, z.completed_at.isSome = z.done

/-- A concrete two-task store used to instantiate universally quantified
statements. -/
def sampleStore : ToDolist :=
  { zadaniey := [Zadanie.mk 1 "a" false "t" none none,
                 Zadanie.mk 2 "b" true "t" (some "u") none],
    next_id := 3 }

/-- A concrete store whose only task is already done, used to instantiate
statements about repeated completion. -/
def doneStore : ToDolist :=
  { zadaniey := [Zadanie.mk 1 "a" true "t0" (some "t1") none], next_id := 2 }

theorem numAssigned_eq_rec (ops : List Op) : numAssigned ops = numAssignedRec ops := by
  induction ops with
  | nil => rfl
  | cons op ops ih =>
    by_cases h : op.assigns <;>
      simp [numAssigned, numAssignedRec, List.filter_cons, h] <;>
      simp [numAssigned] at ih <;> omega

theorem modifyFirst_eq_none {α : Type} {p : α → Bool} {f : α → α} :
    ∀ {l : List α}, (∀ x ∈ l, ¬ p x) → modifyFirst p f l = none := by
  intro l
  induction l with
  | nil => intro _; rfl
  | cons x xs ih =>
    intro h
    have hx : ¬ p x := h x (List.mem_cons_self x xs)
    simp only [modifyFirst, hx, if_neg, Bool.not_eq_true] at *
    rw [ih (fun y hy => h y (List.mem_cons_of_mem x hy))]
    simp [hx]

theorem mem_of_modifyFirst {α : Type} {p : α → Bool} {f : α → α} :
    ∀ {l l' : List α}, modifyFirst p f l = some l' →
      ∀ y ∈ l', y ∈ l ∨ ∃ x ∈ l, p x ∧ y = f x := by
  intro l
  induction l with
  | nil => intro l' h; simp [modifyFirst] at h
  | cons x xs ih =>
    intro l' h y hy
    by_cases hx : p x
    · simp only [modifyFirst, hx, if_pos] at h
      cases h
      rcases List.mem_cons.1 hy with h1 | h1
      · exact Or.inr ⟨x, List.mem_cons_self x xs, hx, h1⟩
      · exact Or.inl (List.mem_cons_of_mem x h1)
    · simp only [modifyFirst, hx, if_neg, Bool.not_eq_true] at h
      rcases Option.map_eq_some'.1 (by simpa using h) with ⟨l'', h1, h2⟩
      subst h2
      rcases List.mem_cons.1 hy with h1' | h1'
      · exact Or.inl (by simp [h1'])
      · rcases ih h1 y h1' with h2 | ⟨z, hz, hpz, hyz⟩
        · exact Or.inl (List.mem_cons_of_mem x h2)
        · exact Or.inr ⟨z, List.mem_cons_of_mem x hz, hpz, hyz⟩

theorem modifyFirst_decomp {α : Type} {p : α → Bool} {f : α → α} :
    ∀ {l : List α} {x : α}, x ∈ l → p x →
      ∃ l₁ z l₂, l = l₁ ++ z :: l₂ ∧ p z ∧ (∀ y ∈ l₁, ¬ p y) ∧
        modifyFirst p f l = some (l₁ ++ f z :: l₂) := by
  intro l
  induction l with
  | nil => intro x hx; exact absurd hx (List.not_mem_nil x)
  | cons a l ih =>
    intro x hx hpx
    by_cases ha : p a
    · exact ⟨[], a, l, rfl, ha, by simp, by simp [modifyFirst, ha]⟩
    · have hxl : x ∈ l := by
        rcases List.mem_cons.1 hx with h | h
        · subst h; exact absurd hpx ha
        · exact h
      rcases ih hxl hpx with ⟨l₁, z, l₂, h1, h2, h3, h4⟩
      refine ⟨a :: l₁, z, l₂, by simp [h1], h2, ?_, ?_⟩
      · intro y hy
        rcases List.mem_cons.1 hy with h | h
        · subst h; exact ha
        · exact h3 y h
      · simp [modifyFirst, ha, h4]

theorem findIdx_eraseIdx_decomp {α : Type} {p : α → Bool} :
    ∀ {l : List α} {x : α}, x ∈ l → p x →
      ∃ l₁ z l₂, l = l₁ ++ z :: l₂ ∧ p z ∧ (∀ y ∈ l₁, ¬ p y) ∧
        l.findIdx? p = some l₁.length ∧ l.eraseIdx l₁.length = l₁ ++ l₂ := by
  intro l
  induction l with
  | nil => intro x hx; exact absurd hx (List.not_mem_nil x)
  | cons a l ih =>
    intro x hx hpx
    by_cases ha : p a
    · exact ⟨[], a, l, rfl, ha, by simp, by simp [ha], by simp⟩
    · have hxl : x ∈ l := by
        rcases List.mem_cons.1 hx with h | h
        · subst h; exact absurd hpx ha
        · exact h
      rcases ih hxl hpx with ⟨l₁, z, l₂, h1, h2, h3, h4, h5⟩
      refine ⟨a :: l₁, z, l₂, by simp [h1], h2, ?_, ?_, ?_⟩
      · intro y hy
        rcases List.mem_cons.1 hy with h | h
        · subst h; exact ha
        · exact h3 y h
      · simp [List.findIdx?_cons, ha, List.findIdx?_succ, h4]
      · simp [List.eraseIdx_cons_succ, h5]

theorem step_next_id (s : ToDolist) (op : Op) :
    (s.step op).next_id = s.next_id + (if op.assigns then 1 else 0) := by
  cases op with
  | add text now => simp [ToDolist.step, ToDolist.add, Op.assigns]
  | add_with_date text date now =>
    cases h : parse_from_str_ymd date <;>
      simp [ToDolist.step, ToDolist.add_with_date, Op.assigns, h]
  | complete id now =>
    simp only [ToDolist.step, ToDolist.complete, Op.assigns]
    cases h : modifyFirst (fun t => t.id == id) (fun t => t.complete now) s.zadaniey <;>
      simp [h]
  | remove id =>
    simp only [ToDolist.step, ToDolist.remove, Op.assigns]
    cases h : s.zadaniey.findIdx? (fun t => t.id == id) <;> simp [h]

theorem assignedIds_eq (ops : List Op) :
    ∀ s : ToDolist, s.assignedIds ops = List.range' s.next_id (numAssignedRec ops) := by
  induction ops with
  | nil => intro s; simp [ToDolist.assignedIds, numAssignedRec]
  | cons op ops ih =>
    intro s
    by_cases h : op.assigns
    · have hstep : (s.step op).next_id = s.next_id + 1 := by
        rw [step_next_id]; simp [h]
      simp only [ToDolist.assignedIds, h, if_pos, numAssignedRec, ih, hstep]
      rw [Nat.add_comm 1 (numAssignedRec ops), List.range'_succ]
    · have hstep : (s.step op).next_id = s.next_id := by
        rw [step_next_id]; simp [h]
      simp [ToDolist.assignedIds, h, numAssignedRec, ih, hstep]

theorem next_id_mono (ops : List Op) :
    ∀ s : ToDolist, s.next_id ≤ (s.run ops).next_id := by
  induction ops with
  | nil => intro s; exact Nat.le_refl _
  | cons op ops ih =>
    intro s
    have h1 : s.next_id ≤ (s.step op).next_id := by
      rw [step_next_id]; split <;> omega
    exact Nat.le_trans h1 (ih (s.step op))

/-- C1: starting from the fresh empty store, the ids assigned over any
command sequence (adds, dated adds, completes, removes interleaved) are
exactly 1, 2, 3, ... — strictly increasing by 1 starting at 1, one per
successful add, so an id is never reassigned after a removal — and from
any store the next_id counter never decreases over any run. -/
theorem spec_c1_ids_strictly_increasing (ops : List Op) :
    ToDolist.new.assignedIds ops = List.range' 1 (numAssignedRec ops) ∧
    ∀ s : ToDolist, s.next_id ≤ (s.run ops).next_id :=
  ⟨assignedIds_eq ops ToDolist.new, fun s => next_id_mono ops s⟩

theorem taskInv_new : TaskInv ToDolist.new := by
  intro z hz
  simp [ToDolist.new] at hz

theorem taskInv_step {s : ToDolist} (h : TaskInv s) (op : Op) : TaskInv (s.step op) := by
  cases op with
  | add text now =>
    intro z hz
    simp only [ToDolist.step, ToDolist.add] at hz
    rcases List.mem_append.1 hz with h1 | h1
    · exact h z h1
    · rcases List.mem_singleton.1 h1 with rfl
      simp [Zadanie.new]
  | add_with_date text date now =>
    intro z hz
    cases hp : parse_from_str_ymd date with
    | none =>
      simp only [ToDolist.step, ToDolist.add_with_date, hp] at hz
      exact h z hz
    | some v =>
      simp only [ToDolist.step, ToDolist.add_with_date, hp] at hz
      rcases List.mem_append.1 hz with h1 | h1
      · exact h z h1
      · rcases List.mem_singleton.1 h1 with rfl
        simp [Zadanie.with_due_date]
  | complete id now =>
    intro z hz
    cases hm : modifyFirst (fun t => t.id == id) (fun t => t.complete now) s.zadaniey with
    | none =>
      simp only [ToDolist.step, ToDolist.complete, hm] at hz
      exact h z hz
    | some l =>
      simp only [ToDolist.step, ToDolist.complete, hm] at hz
      rcases mem_of_modifyFirst hm z hz with h1 | ⟨x, _, _, rfl⟩
      · exact h z h1
      · simp [Zadanie.complete]
  | remove id =>
    intro z hz
    cases hf : s.zadaniey.findIdx? (fun t => t.id == id) with
    | none =>
      simp only [ToDolist.step, ToDolist.remove, hf] at hz
      exact h z hz
    | some i =>
      simp only [ToDolist.step, ToDolist.remove, hf] at hz
      exact h z (List.eraseIdx_subset _ _ hz)

theorem taskInv_run {s : ToDolist} (h : TaskInv s) (ops : List Op) : TaskInv (s.run ops) := by
  induction ops generalizing s with
  | nil => exact h
  | cons op ops ih => exact ih (taskInv_step h op)

/-- C2: in every store state reachable from the fresh empty store by add,
dated add, complete and remove commands, every task has a completion
timestamp exactly when its done flag is set. -/
theorem spec_c2_completed_iff_done (ops : List Op) (z : Zadanie)
    (hz : z ∈ (ToDolist.new.run ops).zadaniey) : z.completed_at.isSome = z.done :=
  taskInv_run taskInv_new ops z hz

/-- Witness for C2 at a concrete run: one task added and then completed. -/
theorem spec_c2_witness :
    (Zadanie.mk 1 "a" true "t0" (some "t1") none) ∈
      (ToDolist.new.run [Op.add "a" "t0", Op.complete 1 "t1"]).zadaniey ∧
    (Zadanie.mk 1 "a" true "t0" (some "t1") none).completed_at.isSome =
      (Zadanie.mk 1 "a" true "t0" (some "t1") none).done :=
  ⟨by decide, spec_c2_completed_iff_done [Op.add "a" "t0", Op.complete 1 "t1"] _ (by decide)⟩

/-- C3: remove with a present id deletes exactly the first task holding that
id and returns the remainder in unchanged relative order, with all fields
and the counter untouched; remove with an absent id returns the NotFound
error and the whole store unchanged. -/
theorem spec_c3_remove (s : ToDolist) (id : Nat) :
    ((∃ z ∈ s.zadaniey, z.id = id) →
      ∃ l₁ z l₂, s.zadaniey = l₁ ++ z :: l₂ ∧ z.id = id ∧ (∀ w ∈ l₁, w.id ≠ id) ∧
        s.remove id = (Except.ok (), { zadaniey := l₁ ++ l₂, next_id := s.next_id })) ∧
    ((∀ z ∈ s.zadaniey, z.id ≠ id) →
      s.remove id = (Except.error (notFoundErr id), s)) := by
  constructor
  · rintro ⟨z, hz, hid⟩
    rcases findIdx_eraseIdx_decomp (p := fun t => t.id == id) hz (by simp [hid]) with
      ⟨l₁, w, l₂, h1, h2, h3, h4, h5⟩
    refine ⟨l₁, w, l₂, h1, by simpa using h2, ?_, ?_⟩
    · intro y hy
      have := h3 y hy
      simpa using this
    · simp only [ToDolist.remove, h4, h5]
  · intro h
    have hf : s.zadaniey.findIdx? (fun t => t.id == id) = none := by
      rw [List.findIdx?_eq_none_iff]
      intro x hx
      simpa using h x hx
    simp only [ToDolist.remove, hf]

/-- Witness for C3 on the concrete sampleStore: id 1 is present and removed,
id 5 is absent and rejected. -/
theorem spec_c3_witness :
    (∃ l₁ z l₂, sampleStore.zadaniey = l₁ ++ z :: l₂ ∧ z.id = 1 ∧
      (∀ w ∈ l₁, w.id ≠ 1) ∧
      sampleStore.remove 1 =
        (Except.ok (), { zadaniey := l₁ ++ l₂, next_id := sampleStore.next_id })) ∧
    sampleStore.remove 5 = (Except.error (notFoundErr 5), sampleStore) :=
  ⟨(spec_c3_remove sampleStore 1).1 (by decide),
   (spec_c3_remove sampleStore 5).2 (by decide)⟩

/-- C4: add_with_date validates the date string first; an invalid date
returns the format error with the store untouched, a valid date appends the
task carrying the due date and increments next_id — the appended task being
exactly the task add would have built, with the due date attached. -/
theorem spec_c4_add_with_date (s : ToDolist) (text date now : String) :
    (parse_from_str_ymd date = none →
      s.add_with_date text date now = (Except.error dateFormatErr, s)) ∧
    ((parse_from_str_ymd date).isSome →
      s.add_with_date text date now =
        (Except.ok (),
          { zadaniey := s.zadaniey ++ [Zadanie.with_due_date s.next_id text (some date) now],
            next_id := s.next_id + 1 }) ∧
      (s.add_with_date text date now).2.next_id = (s.add text now).next_id ∧
      (s.add_with_date text date now).2.zadaniey =
        (s.add text now).zadaniey.dropLast ++
          [{ Zadanie.new s.next_id text now with due_date := some date }]) := by
  constructor
  · intro h
    simp only [ToDolist.add_with_date, h]
  · intro h
    rcases Option.isSome_iff_exists.1 h with ⟨v, hv⟩
    refine ⟨by simp only [ToDolist.add_with_date, hv], ?_, ?_⟩
    · simp only [ToDolist.add_with_date, hv, ToDolist.add]
    · simp only [ToDolist.add_with_date, hv, ToDolist.add, List.dropLast_concat]
      rfl

/-- Witness for C4: the invalid calendar date 2024-02-30 is rejected on the
fresh store, and the valid date 2025-01-15 is appended. -/
theorem spec_c4_witness :
    ToDolist.new.add_with_date "a" "2024-02-30" "t0" =
      (Except.error dateFormatErr, ToDolist.new) ∧
    (ToDolist.new.add_with_date "b" "2025-01-15" "t0" =
      (Except.ok (),
        { zadaniey := ToDolist.new.zadaniey ++
            [Zadanie.with_due_date ToDolist.new.next_id "b" (some "2025-01-15") "t0"],
          next_id := ToDolist.new.next_id + 1 }) ∧
      (ToDolist.new.add_with_date "b" "2025-01-15" "t0").2.next_id =
        (ToDolist.new.add "b" "t0").next_id ∧
      (ToDolist.new.add_with_date "b" "2025-01-15" "t0").2.zadaniey =
        (ToDolist.new.add "b" "t0").zadaniey.dropLast ++
          [{ Zadanie.new ToDolist.new.next_id "b" "t0" with due_date := some "2025-01-15" }]) :=
  ⟨(spec_c4_add_with_date ToDolist.new "a" "2024-02-30" "t0").1 (by decide),
   (spec_c4_add_with_date ToDolist.new "b" "2025-01-15" "t0").2 (by decide)⟩

theorem fromJson_toJson (z : Zadanie) : Zadanie.fromJson z.toJson = some z := by
  cases z with
  | mk id text done created_at completed_at due_date =>
    cases completed_at <;> cases due_date <;> rfl

theorem parseTasks_save (ts : List Zadanie) : parseTasks (save_to_file ts) = some ts := by
  simp only [parseTasks, save_to_file]
  induction ts with
  | nil => rfl
  | cons z ts ih =>
    simp only [List.map_cons, List.mapM_cons, fromJson_toJson, ih]
    rfl

/-- C5: saving a non-empty task sequence and loading it back returns the
sequence unchanged, field for field. -/
theorem spec_c5_roundtrip (ts : List Zadanie) (h : ts ≠ []) :
    load_from_file (some (save_to_file ts)) = Except.ok ts := by
  simp only [load_from_file, parseTasks_save]

/-- Witness for C5 on a concrete one-task sequence. -/
theorem spec_c5_witness :
    load_from_file (some (save_to_file [Zadanie.mk 1 "a" false "t" none (some "2025-01-15")])) =
      Except.ok [Zadanie.mk 1 "a" false "t" none (some "2025-01-15")] :=
  spec_c5_roundtrip [Zadanie.mk 1 "a" false "t" none (some "2025-01-15")] (by decide)

/-- C6: loading when the fixed-path file does not exist returns the empty
sequence successfully — the first-run state, not an IO error. -/
theorem spec_c6_missing_file : load_from_file none = Except.ok [] := rfl

/-- C7: on a non-empty store, list reports progress equal to the number of
completed tasks divided by the total count times 100, with one line per task
in insertion order; on the empty store it produces the distinct empty
output, carrying no progress value. -/
theorem spec_c7_list_progress (s : ToDolist) :
    (s.zadaniey = [] → s.list = ListOutput.empty) ∧
    (s.zadaniey ≠ [] →
      s.list = ListOutput.tasks
        ((s.zadaniey.countP (fun t => t.done) : ℚ) / (s.zadaniey.length : ℚ) * 100)
        (s.zadaniey.map (fun z => (z.id, z.done, z.text, z.due_date)))) := by
  constructor
  · intro h
    simp [ToDolist.list, h]
  · intro h
    simp only [ToDolist.list, List.isEmpty_iff, if_neg h]
    rw [List.countP_eq_length_filter]

/-- Witness for C7: the fresh store gives the empty output, and the concrete
sampleStore (one of two tasks done) gives the progress formula. -/
theorem spec_c7_witness :
    ToDolist.new.list = ListOutput.empty ∧
    sampleStore.list = ListOutput.tasks
      ((sampleStore.zadaniey.countP (fun t => t.done) : ℚ) /
        (sampleStore.zadaniey.length : ℚ) * 100)
      (sampleStore.zadaniey.map (fun z => (z.id, z.done, z.text, z.due_date))) :=
  ⟨(spec_c7_list_progress ToDolist.new).1 (by decide),
   (spec_c7_list_progress sampleStore).2 (by decide)⟩

/-- Counterexample to C8: there is no store-level guard — after add and a
first complete at time t1, a second complete of the same id reaches the
entity-level complete again and refreshes completed_at from t1 to t2. -/
theorem spec_c8_counterexample :
    (ToDolist.new.run [Op.add "a" "t0", Op.complete 1 "t1"]).zadaniey.map
      Zadanie.completed_at = [some "t1"] ∧
    (ToDolist.new.run [Op.add "a" "t0", Op.complete 1 "t1",
      Op.complete 1 "t2"]).zadaniey.map Zadanie.completed_at = [some "t2"] ∧
    (some "t2" : Option String) ≠ some "t1" := by
  refine ⟨by decide, by decide, by decide⟩

/-- C8 amended: whenever the id is found — whether or not the task is
already done — ToDolist::complete invokes the entity-level complete on the
first task holding the id, so a repeated call refreshes completed_at to the
new current time. -/
theorem spec_c8_complete_always_refreshes (s : ToDolist) (id : Nat) (now : String)
    (h : ∃ z ∈ s.zadaniey, z.id = id) :
    ∃ l₁ z l₂, s.zadaniey = l₁ ++ z :: l₂ ∧ z.id = id ∧ (∀ w ∈ l₁, w.id ≠ id) ∧
      s.complete id now =
        (Except.ok (),
          { zadaniey := l₁ ++ { z with done := true, completed_at := some now } :: l₂,
            next_id := s.next_id }) := by
  rcases h with ⟨z, hz, hid⟩
  rcases modifyFirst_decomp (p := fun t => t.id == id) (f := fun t => t.complete now)
      (l := s.zadaniey) (x := z) hz (by simp [hid]) with ⟨l₁, w, l₂, h1, h2, h3, h4⟩
  refine ⟨l₁, w, l₂, h1, by simpa using h2, ?_, ?_⟩
  · intro y hy
    simpa using h3 y hy
  · simp only [ToDolist.complete, h4]
    rfl

/-- Witness for the amended C8 on doneStore, whose only task is already
done with completed_at t1: complete at time t2 still rewrites it. -/
theorem spec_c8_witness :
    ∃ l₁ z l₂, doneStore.zadaniey = l₁ ++ z :: l₂ ∧ z.id = 1 ∧
      (∀ w ∈ l₁, w.id ≠ 1) ∧
      doneStore.complete 1 "t2" =
        (Except.ok (),
          { zadaniey := l₁ ++ { z with done := true, completed_at := some "t2" } :: l₂,
            next_id := doneStore.next_id }) :=
  spec_c8_complete_always_refreshes doneStore 1 "t2" (by decide)

/-- Counterexample to C9: the store does not enforce non-empty text — add
called with the empty string stores a task whose text is empty. -/
theorem spec_c9_counterexample :
    ∃ z ∈ (ToDolist.new.add "" "t0").zadaniey, z.text = "" := by decide

/-- C9 amended: the stored task carries exactly the text handed to add or
add_with_date, so the stored text is non-empty whenever the input text is
non-empty; the store itself does not validate it. -/
theorem spec_c9_text_preserved (s : ToDolist) (text now date : String)
    (h : text ≠ "") :
    (∃ z, (s.add text now).zadaniey.getLast? = some z ∧ z.text = text ∧ z.text ≠ "") ∧
    ((s.add_with_date text date now).1 = Except.ok () →
      ∃ z, (s.add_with_date text date now).2.zadaniey.getLast? = some z ∧
        z.text = text ∧ z.text ≠ "") := by
  constructor
  · refine ⟨Zadanie.new s.next_id text now, ?_, rfl, h⟩
    simp [ToDolist.add, List.getLast?_concat]
  · intro hok
    cases hp : parse_from_str_ymd date with
    | none => simp [ToDolist.add_with_date, hp] at hok
    | some v =>
      refine ⟨Zadanie.with_due_date s.next_id text (some date) now, ?_, rfl, h⟩
      simp [ToDolist.add_with_date, hp, List.getLast?_concat]

/-- Witness for the amended C9 on the fresh store with a one-letter text and
a valid date. -/
theorem spec_c9_witness :
    (∃ z, (ToDolist.new.add "a" "t0").zadaniey.getLast? = some z ∧
      z.text = "a" ∧ z.text ≠ "") ∧
    ((ToDolist.new.add_with_date "a" "2025-01-15" "t0").1 = Except.ok () →
      ∃ z, (ToDolist.new.add_with_date "a" "2025-01-15" "t0").2.zadaniey.getLast? =
        some z ∧ z.text = "a" ∧ z.text ≠ "") :=
  spec_c9_text_preserved ToDolist.new "a" "t0" "2025-01-15" (by decide)

/-- C10: on startup the counter is recomputed as the maximum loaded id plus
one (1 on an empty load) — every loaded id is below it and, on a non-empty
load, it is exactly one above some loaded id — and in the concrete scenario
add, add, remove the max id, save, load, the next add reassigns id 2, which
had been assigned and removed in the earlier run. -/
theorem spec_c10_next_id_recomputed :
    (∀ ts : List Zadanie, (initFromLoaded ts).zadaniey = ts) ∧
    (initFromLoaded []).next_id = 1 ∧
    (∀ ts : List Zadanie, ∀ z ∈ ts, z.id < (initFromLoaded ts).next_id) ∧
    (∀ ts : List Zadanie, ts ≠ [] → ∃ z ∈ ts, (initFromLoaded ts).next_id = z.id + 1) ∧
    ToDolist.new.assignedIds reloadScenarioOps = [1, 2] ∧
    reloadScenarioStore.zadaniey.map Zadanie.id = [1] ∧
    load_from_file (some (save_to_file reloadScenarioStore.zadaniey)) =
      Except.ok reloadScenarioStore.zadaniey ∧
    (initFromLoaded reloadScenarioStore.zadaniey).next_id = 2 ∧
    ((initFromLoaded reloadScenarioStore.zadaniey).add "c" "t3").zadaniey.map
      Zadanie.id = [1, 2] := by
  refine ⟨fun ts => rfl, rfl, ?_, ?_, by decide, by decide, by decide, by decide, by decide⟩
  · intro ts z hz
    have h1 : z.id ∈ ts.map Zadanie.id := List.mem_map_of_mem _ hz
    obtain ⟨a, ha⟩ := Option.isSome_iff_exists.1 (List.isSome_max?_of_mem h1)
    have h2 : z.id ≤ a := (List.max?_eq_some_iff'.1 ha).2 _ h1
    simp only [initFromLoaded, ha, Option.getD_some]
    omega
  · intro ts h
    have hne : ts.map Zadanie.id ≠ [] := by simpa using h
    obtain ⟨a, ha⟩ : ∃ a, (ts.map Zadanie.id).max? = some a := by
      cases hm : (ts.map Zadanie.id).max? with
      | none => exact absurd (List.max?_eq_none_iff.1 hm) hne
      | some a => exact ⟨a, rfl⟩
    obtain ⟨z, hz, hid⟩ := List.mem_map.1 (List.max?_eq_some_iff'.1 ha).1
    exact ⟨z, hz, by simp [initFromLoaded, ha, hid]⟩

/-- Witness for C10 on the concrete sampleStore contents: both loaded ids
are below the recomputed counter, and the counter is one above id 2. -/
theorem spec_c10_witness :
    (∀ z ∈ sampleStore.zadaniey, z.id < (initFromLoaded sampleStore.zadaniey).next_id) ∧
    ∃ z ∈ sampleStore.zadaniey,
      (initFromLoaded sampleStore.zadaniey).next_id = z.id + 1 :=
  ⟨spec_c10_next_id_recomputed.2.2.1 sampleStore.zadaniey,
   spec_c10_next_id_recomputed.2.2.2.1 sampleStore.zadaniey (by decide)⟩
